import Mathlib

/-!
Verification of the MedAssist orchestration core: the session memory store
(`conversation_memory.py`) and the LangGraph workflow router (`agent.py`).

The Python source is shallowly embedded: dictionaries become association
lists with Python dict semantics (update in place preserves position, new
keys append at the end), `datetime` timestamps become integers counted in
seconds, Python string truthiness (`if s:`) becomes a test against the
empty string, and every external collaborator (LLM, Neo4j driver, vector
store, filesystem) becomes an explicit oracle argument.  A Python function
that may raise is embedded as a function into `Except String`, with the
`try`/`except` structure of the source reproduced at each call site.
-/

namespace MedAssist

/-- Python truthiness of an optional string: `None` and the empty string
are falsy, every other string is truthy. -/
def truthyS : Option String → Bool
  | none => false
  | some s => s ≠ ""

/-- One chat message, as built by `ConversationMemory.add_message`:
role, content, a timestamp (seconds; the source stores an ISO string) and
the optional metadata dict (`metadata or {}`). -/
structure Message where
  role : String
  content : String
  timestamp : Int
  metadata : List (String × String)
deriving DecidableEq, Repr

/-- One conversation session, mirroring the dict built by
`ConversationMemory.create_session`. -/
structure Session where
  session_id : String
  customer_id : Option String
  created_at : Int
  last_accessed : Int
  messages : List Message
deriving DecidableEq, Repr

/-- The in-memory store of `ConversationMemory`: `max_history`,
`ttl_minutes` and the `conversations` dict, embedded as an association
list with Python dict ordering. -/
structure ConversationMemory where
  max_history : Nat
  ttl_minutes : Int
  conversations : List (String × Session)
deriving DecidableEq, Repr

/-- The per-session snapshot directory on disk (`persist_dir`), one entry
per session id, mirroring the file-per-session JSON layout. -/
abbrev Disk := List (String × Session)

/-- Dict lookup on the association list. -/
def lookupS : List (String × Session) → String → Option Session
  | [], _ => none
  | (k, v) :: rest, sid => if k = sid then some v else lookupS rest sid

/-- Dict assignment `d[sid] = s`: updating an existing key keeps its
position, a new key is appended at the end (Python insertion order). -/
def insertS : List (String × Session) → String → Session → List (String × Session)
  | [], sid, s => [(sid, s)]
  | (k, v) :: rest, sid, s =>
      if k = sid then (sid, s) :: rest else (k, v) :: insertS rest sid s

/-- Dict deletion `del d[sid]` (dict keys are unique, so removing every
pair with the key is the same operation). -/
def removeS (l : List (String × Session)) (sid : String) : List (String × Session) :=
  l.filter (fun p => p.1 ≠ sid)

/-- Python slice `l[-n:]` for `n ≥ 1`, and the identity for `n ≥ len(l)`:
the last `n` elements of `l`. -/
def pyTakeLast (n : Nat) (l : List α) : List α :=
  l.drop (l.length - n)

/-- `ConversationMemory.create_session`: stores a fresh session dict with
empty message list under the given id (replacing any existing entry). -/
def createSession (mem : ConversationMemory) (sid : String) (cid : Option String)
    (now : Int) : ConversationMemory :=
  let s : Session :=
    { session_id := sid, customer_id := cid, created_at := now,
      last_accessed := now, messages := [] }
  { mem with conversations := insertS mem.conversations sid s }

/-- Result of one `add_message` call: the updated store and warning flag
when the call returns, or the deadlock when it never does. -/
inductive AddMessageResult where
  | ok (mem : ConversationMemory) (warned : Bool)
  | deadlock
deriving DecidableEq, Repr

/-- `ConversationMemory.add_message`.  The whole body runs holding
`self.lock`, a non-reentrant `threading.Lock`.  For an existing session
it appends the message, refreshes `last_accessed`, and trims the list to
the most recent `max_history` entries when it exceeds the bound.  For an
absent session it logs a warning and then calls `create_session`, whose
own `with self.lock:` blocks forever on the lock the calling thread
already holds: the call never returns, embedded as `.deadlock`. -/
def addMessage (mem : ConversationMemory) (sid role content : String)
    (md : List (String × String)) (now : Int) : AddMessageResult :=
  match lookupS mem.conversations sid with
  | none => .deadlock
  | some sess =>
      let appended := sess.messages ++ [⟨role, content, now, md⟩]
      let trimmed :=
        if appended.length > mem.max_history then pyTakeLast mem.max_history appended
        else appended
      let sess' := { sess with messages := trimmed, last_accessed := now }
      .ok { mem with conversations := insertS mem.conversations sid sess' } false

/-- The store as observable after an `add_message` call: updated when the
call returns, unchanged on the deadlock path, where the hung call never
mutates it.  The callers in this repository always create the session
before calling `add_message`, so for them this is the returning call. -/
def addMessageD (mem : ConversationMemory) (sid role content : String)
    (md : List (String × String)) (now : Int) : ConversationMemory :=
  match addMessage mem sid role content md now with
  | .ok m _ => m
  | .deadlock => mem

/-- The session value `add_message` writes back for an existing session:
appended, trimmed to the last `maxH`, access time refreshed. -/
def sessAfterAdd (maxH : Nat) (sess : Session) (role content : String)
    (md : List (String × String)) (now : Int) : Session :=
  { sess with messages := pyTakeLast maxH (sess.messages ++ [⟨role, content, now, md⟩]),
              last_accessed := now }

/-- `ConversationMemory.get_history`: an unknown session yields `[]` and
leaves the store unchanged; a known session has `last_accessed` refreshed
and its messages returned, sliced to the last `last_n` only when `last_n`
is truthy (`if last_n:` — so both `None` and `0` mean all messages). -/
def getHistory (mem : ConversationMemory) (sid : String) (lastN : Option Nat)
    (now : Int) : List Message × ConversationMemory :=
  match lookupS mem.conversations sid with
  | none => ([], mem)
  | some sess =>
      let sess' := { sess with last_accessed := now }
      let mem' := { mem with conversations := insertS mem.conversations sid sess' }
      let msgs := sess.messages
      (match lastN with
       | some n => if n ≠ 0 then pyTakeLast n msgs else msgs
       | none => msgs, mem')

/-- `ConversationMemory.get_context_string`: the last `last_n` messages
formatted as newline-joined `Role: content` lines. -/
def getContextString (mem : ConversationMemory) (sid : String) (lastN : Nat)
    (now : Int) : String × ConversationMemory :=
  let (history, mem') := getHistory mem sid (some lastN) now
  if history = [] then ("", mem')
  else
    (String.intercalate "\n"
      (history.map (fun m => m.role.capitalize ++ ": " ++ m.content)), mem')

/-- `ConversationMemory.clear_session`: removes the session if present and
reports whether one was removed. -/
def clearSession (mem : ConversationMemory) (sid : String) : ConversationMemory × Bool :=
  match lookupS mem.conversations sid with
  | none => (mem, false)
  | some _ => ({ mem with conversations := removeS mem.conversations sid }, true)

/-- The TTL predicate of `cleanup_expired_sessions`:
`current_time - last_accessed > timedelta(minutes=ttl_minutes)`, with
times in seconds. -/
def expiredP (ttlMinutes : Int) (now : Int) (s : Session) : Bool :=
  now - s.last_accessed > ttlMinutes * 60

/-- `ConversationMemory._persist_session`: writes the session dict to its
snapshot file when the session exists; the `ok` flag models the
`try`/`except` around the file write (best-effort, failures swallowed). -/
def persistSession (ok : Bool) (mem : ConversationMemory) (disk : Disk)
    (sid : String) : Disk :=
  if ok then
    match lookupS mem.conversations sid with
    | some s => insertS disk sid s
    | none => disk
  else disk

/-- `ConversationMemory.load_session`: restores a session from its
snapshot file into the store, refreshing `last_accessed`; returns whether
a snapshot was found (decode failures are reported as `false` by the
source and are subsumed by the missing-file case here). -/
def loadSession (disk : Disk) (mem : ConversationMemory) (sid : String)
    (now : Int) : ConversationMemory × Bool :=
  match lookupS disk sid with
  | some d =>
      let d' := { d with last_accessed := now }
      ({ mem with conversations := insertS mem.conversations sid d' }, true)
  | none => (mem, false)

/-- `ConversationMemory.cleanup_expired_sessions`: collects the ids whose
`last_accessed` is older than the TTL, best-effort persists each one
(`persistOk` models each file write outcome), deletes them, and returns
the number removed. -/
def cleanupExpiredSessions (mem : ConversationMemory) (disk : Disk)
    (persistOk : String → Bool) (now : Int) : ConversationMemory × Disk × Nat :=
  let expired := (mem.conversations.filter
      (fun p => expiredP mem.ttl_minutes now p.2)).map (·.1)
  let disk' := expired.foldl (fun d sid => persistSession (persistOk sid) mem d sid) disk
  let conv' := expired.foldl removeS mem.conversations
  ({ mem with conversations := conv' }, disk', expired.length)

/-- The public mutating operations of the store, used to state the
size-bound invariant over every operation. -/
inductive MemOp where
  | create (sid : String) (cid : Option String) (now : Int)
  | add (sid role content : String) (md : List (String × String)) (now : Int)
  | history (sid : String) (lastN : Option Nat) (now : Int)
  | clear (sid : String)
  | cleanup (persistOk : String → Bool) (now : Int)
  | load (sid : String) (now : Int)

/-- Applies one store operation to the memory and the snapshot directory. -/
def applyOp (mem : ConversationMemory) (disk : Disk) : MemOp → ConversationMemory × Disk
  | .create sid cid now => (createSession mem sid cid now, disk)
  | .add sid role content md now => (addMessageD mem sid role content md now, disk)
  | .history sid lastN now => ((getHistory mem sid lastN now).2, disk)
  | .clear sid => ((clearSession mem sid).1, disk)
  | .cleanup pOk now =>
      let r := cleanupExpiredSessions mem disk pOk now
      (r.1, r.2.1)
  | .load sid now => ((loadSession disk mem sid now).1, disk)

/-- Every session held in memory respects the `max_history` bound. -/
def SizeInv (mem : ConversationMemory) : Prop :=
  ∀ p ∈ mem.conversations, p.2.messages.length ≤ mem.max_history

/-- Every snapshot on disk respects the bound `n` (snapshots written by
this store are trimmed sessions, so this holds of its own output). -/
def DiskInv (disk : Disk) (n : Nat) : Prop :=
  ∀ p ∈ disk, p.2.messages.length ≤ n

/-- A sequence of `addMessage` calls on one session id. -/
def addMany (mem : ConversationMemory) (sid : String)
    (items : List (String × String × List (String × String) × Int)) :
    ConversationMemory :=
  items.foldl (fun m it => addMessageD m sid it.1 it.2.1 it.2.2.1 it.2.2.2) mem

/-- The message built from one `addMany` item. -/
def mkMsg (it : String × String × List (String × String) × Int) : Message :=
  ⟨it.1, it.2.1, it.2.2.2, it.2.2.1⟩

/-- `config.CONFIDENCE_THRESHOLD` (0.7), with classifier confidences
embedded as rationals. -/
def CONFIDENCE_THRESHOLD : ℚ := mkRat 7 10

/-- The classifier parameters the router and hybrid node read
(`parameters.get(...)`); absent or null JSON values are `none`. -/
structure Params where
  treatment_name : Option String := none
  city : Option String := none
  min_discount : Option Int := none
deriving DecidableEq, Repr

/-- One structured result row.  The Neo4j driver returns each row with
exactly the aliases named in the RETURN clause, so the keys accessed by
the synthesizer fallback and the hybrid formatter always exist; their
values may be null (`none`). -/
structure Row where
  policy_plan : Option String := none
  treatment_name : Option String := none
  hospital_name : Option String := none
  sub_limit : Option Int := none
  copay : Option Int := none
  discount : Option Int := none
  hospital : Option String := none
  city : Option String := none
  tier : Option String := none
  cashless : Option Bool := none
deriving DecidableEq, Repr

/-- One vector-store search result (`document` text plus the filename
from its metadata, when present). -/
structure Snippet where
  document : String
  filename : Option String := none
deriving DecidableEq, Repr

/-- Outcome of the classifier LLM call plus JSON parse: either the parsed
fields or a raised exception with its `str(e)` message. -/
inductive ClassifyRes where
  | ok (intent : String) (confidence : ℚ) (needsHybrid : Bool) (params : Params)
  | raise (msg : String)

/-- Outcome of one `query_planner_node` body: the computed Cypher query
(`none` when no template matched), or a raised exception. -/
inductive PlanRes where
  | ok (q : Option String)
  | raise (msg : String)

/-- Outcome of one `connector.execute_query` call. -/
inductive ExecRes where
  | ok (rows : List Row)
  | raise (msg : String)

/-- Outcome of one `llm.invoke` call (the generated text, or `str(e)`). -/
inductive GenRes where
  | ok (text : String)
  | raise (msg : String)

/-- Outcome of one `vector_store.search` call. -/
inductive SearchRes where
  | ok (results : List Snippet)
  | raise (msg : String)

/-- The environment of one `process_query` request: every external call
outcome, indexed by call count where a node can run more than once. -/
structure Oracles where
  classify : ClassifyRes
  plan : Nat → PlanRes
  exec : Nat → ExecRes
  synthGen : GenRes
  hasVectorStore : Bool
  ragSearch : SearchRes
  ragGen : GenRes
  ragGenGeneral : GenRes
  hasConnector : Bool
  hybridExec : ExecRes
  hybridSearch : SearchRes
  hybridGen : GenRes

/-- The nodes of the LangGraph `StateGraph` built in `_build_workflow`. -/
inductive Node where
  | classifier
  | query_planner
  | kg_executor
  | synthesizer
  | rag_fallback
  | hybrid
  | escalation
deriving DecidableEq, Repr

/-- The `AgentState` dict threaded through the workflow (the fields the
router and nodes read; `messages`, `session_id` and `cypher_params` are
never consulted by a routing decision and are omitted).  `needs_hybrid`
is `Option Bool` because `process_query` builds the initial dict without
that key and the classifier only sets it on success; the router reads it
with `state.get("needs_hybrid", False)`. -/
structure AgentState where
  user_query : String
  customer_id : Option String
  intent : String
  confidence : ℚ
  needs_hybrid : Option Bool
  parameters : Params
  cypher_query : String
  query_results : List Row
  rag_results : String
  final_response : String
  error : String
  requires_escalation : Bool
  attempt_count : Nat
deriving DecidableEq, Repr

/-- The fresh `initial_state` dict built by `process_query`. -/
def initSt (q : String) (cid : Option String) : AgentState :=
  { user_query := q, customer_id := cid, intent := "", confidence := mkRat 0 1
    needs_hybrid := none, parameters := {}, cypher_query := ""
    query_results := [], rag_results := "", final_response := ""
    error := "", requires_escalation := false, attempt_count := 0 }

/-- `MedAssistAgent.classifier_node`: on success stores intent,
confidence, parameters and the hybrid flag; on any exception falls back
to `general_question` with confidence 0.3 and records the error. -/
def classifierNode (o : Oracles) (s : AgentState) : AgentState :=
  match o.classify with
  | .ok i c h p =>
      { s with intent := i, confidence := c, parameters := p, needs_hybrid := some h }
  | .raise m =>
      { s with intent := "general_question", confidence := mkRat 3 10, error := m }

/-- The intents `route_after_classification` treats as general/document
questions. -/
def generalIntents : List String :=
  ["general_question", "greeting", "policy_utilization", "coverage_check"]

/-- `MedAssistAgent.route_after_classification`. -/
def routeAfterClassification (s : AgentState) : Node :=
  if s.intent = "escalation" then .escalation
  else if s.needs_hybrid.getD false then .hybrid
  else if s.confidence < CONFIDENCE_THRESHOLD then .rag_fallback
  else if s.intent ∈ generalIntents then .rag_fallback
  else if truthyS s.customer_id = false ∧ s.intent ∉ generalIntents then .escalation
  else .query_planner

/-- `MedAssistAgent.query_planner_node`: stores the generated Cypher query
when one was produced and is truthy; otherwise records the
could-not-generate error; an exception records `str(e)`.  The node never
clears a pre-existing `error` on success. -/
def queryPlannerNode (res : PlanRes) (s : AgentState) : AgentState :=
  match res with
  | .ok qopt =>
      if truthyS qopt then { s with cypher_query := qopt.getD "" }
      else { s with error := "Could not generate Cypher query" }
  | .raise m => { s with error := m }

/-- `MedAssistAgent.route_after_planning`: a truthy `error` or a falsy
`cypher_query` routes to the RAG fallback, otherwise to the executor. -/
def routeAfterPlanning (s : AgentState) : Node :=
  if s.error ≠ "" then .rag_fallback
  else if s.cypher_query = "" then .rag_fallback
  else .kg_executor

/-- `MedAssistAgent.kg_executor_node`: with no query it only records an
error; otherwise it runs the query, storing the rows on success, and on
an exception records `str(e)` and increments `attempt_count`. -/
def kgExecutorNode (res : ExecRes) (s : AgentState) : AgentState :=
  if s.cypher_query = "" then { s with error := "No query to execute" }
  else
    match res with
    | .ok rows => { s with query_results := rows }
    | .raise m => { s with error := m, attempt_count := s.attempt_count + 1 }

/-- `MedAssistAgent.route_after_execution`: on a truthy error, retry the
planner while `attempt_count < 2`, else fall back; with no error, empty
results fall back and non-empty results go to the synthesizer. -/
def routeAfterExecution (s : AgentState) : Node :=
  if s.error ≠ "" then
    if s.attempt_count < 2 then .query_planner else .rag_fallback
  else if s.query_results = [] then .rag_fallback
  else .synthesizer

/-- Rendering of a Python value in an f-string: `None` or the value. -/
def optStr : Option String → String
  | none => "None"
  | some t => t

/-- Rendering of an optional integer in an f-string. -/
def optIntStr : Option Int → String
  | none => "None"
  | some n => toString n

/-- `MedAssistAgent._generate_fallback_response`.  The coverage_check
template formats `r.get('sub_limit')` with a thousands separator
(`:,`), which raises a `TypeError` when the value is null — that is the
one partial spot, embedded as `Except.error`. -/
def generateFallbackResponse (intent : String) (results : List Row) :
    Except String String :=
  match results with
  | [] => .ok "I couldn't find information matching your query."
  | r :: _ =>
      if intent = "coverage_check" then
        match r.sub_limit with
        | none => .error "unsupported format string passed to NoneType.__format__"
        | some n =>
            .ok ("Your " ++ optStr r.policy_plan ++ " policy covers " ++
              optStr r.treatment_name ++ " at " ++ optStr r.hospital_name ++
              ". Sub-limit: ₹" ++ toString n ++ ", Co-pay: " ++
              optIntStr r.copay ++ "%.")
      else if intent = "hospital_finder" then
        .ok ("Here are your in-network hospitals: " ++
          String.intercalate ", "
            ((results.take 3).map (fun rr =>
              optStr rr.hospital_name ++ " (" ++ optIntStr rr.discount ++ "% discount)")) ++
          ".")
      else .ok ("Found " ++ toString results.length ++ " result(s) for your query.")

/-- `MedAssistAgent.synthesizer_node`: empty results get a fixed message;
otherwise the LLM answer is used, and on an LLM exception the structured
fallback template — whose own failure is not caught and propagates. -/
def synthesizerNode (o : Oracles) (s : AgentState) : Except String AgentState :=
  if s.query_results = [] then
    .ok { s with final_response :=
      "I couldn't find any information matching your query. Could you provide more details?" }
  else
    match o.synthGen with
    | .ok t => .ok { s with final_response := t.trim }
    | .raise _ =>
        (generateFallbackResponse s.intent s.query_results).map
          (fun r => { s with final_response := r })

/-- The second half of `rag_fallback_node`: the general-knowledge LLM
call with its fixed-message exception handler. -/
def ragGeneralKnowledge (o : Oracles) (s : AgentState) : AgentState :=
  match o.ragGenGeneral with
  | .ok t => { s with final_response := t.trim }
  | .raise _ =>
      { s with final_response :=
          "I'm having trouble processing that question. Could you rephrase it or provide more details?" }

/-- `MedAssistAgent.rag_fallback_node`: tries vector-store retrieval plus
generation first (any exception, or no results, falls through), then the
general-knowledge prompt. -/
def ragFallbackNode (o : Oracles) (s : AgentState) : AgentState :=
  if o.hasVectorStore then
    match o.ragSearch with
    | .ok results =>
        if results ≠ [] then
          match o.ragGen with
          | .ok t => { s with final_response := t.trim }
          | .raise _ => ragGeneralKnowledge o s
        else ragGeneralKnowledge o s
    | .raise _ => ragGeneralKnowledge o s
  else ragGeneralKnowledge o s

/-- The hospital list block the hybrid node formats from its KG rows
(top 5, with tier/discount/cashless line per hospital). -/
def hybridKgSummary (rows : List Row) : String :=
  if rows = [] then ""
  else
    "\n\nNetwork Hospitals Found (" ++ toString rows.length ++ "):\n" ++
      String.join ((rows.take 5).map (fun r =>
        optStr r.hospital ++ " - " ++ optStr r.city ++ "\n   Tier: " ++
        optStr r.tier ++ " | Discount: " ++ optIntStr r.discount ++ "% | " ++
        (if r.cashless.getD false then "✓ Cashless" else "✗ No Cashless") ++ "\n"))

/-- `MedAssistAgent.hybrid_node`: best-effort KG query (only for the
three listed intents with a truthy city), best-effort policy retrieval,
then one synthesis call whose failure falls back to raw concatenation. -/
def hybridNode (o : Oracles) (s : AgentState) : AgentState :=
  let kgResults :=
    if o.hasConnector ∧
        s.intent ∈ ["hospital_finder", "coverage_check", "policy_utilization"] ∧
        truthyS s.parameters.city then
      match o.hybridExec with
      | .ok rows => rows
      | .raise _ => []
    else []
  let ragContext :=
    if o.hasVectorStore then
      match o.hybridSearch with
      | .ok rs =>
          if rs ≠ [] then String.intercalate "\n\n" (rs.map (·.document)) else ""
      | .raise _ => ""
    else ""
  let kgSummary := hybridKgSummary kgResults
  match o.hybridGen with
  | .ok t =>
      { s with final_response := t.trim, query_results := kgResults,
               rag_results := ragContext }
  | .raise _ =>
      { s with final_response :=
          if ragContext ≠ "" ∨ kgSummary ≠ "" then ragContext ++ "\n\n" ++ kgSummary
          else "I couldn't find complete information for your query." }

/-- `MedAssistAgent.escalation_node`: fixed informational response plus
the escalation flag; no collaborator calls. -/
def escalationNode (s : AgentState) : AgentState :=
  let msg :=
    "I want to make sure you get the most accurate information for your query.\nLet me connect you with one of our insurance specialists who can provide personalized assistance.\n\nWould you like me to:\n1. Transfer you to a live agent\n2. Schedule a callback\n3. Try rephrasing your question\n\nPlease let me know how you'd like to proceed."
  { s with final_response := msg, requires_escalation := true }

/-- Counters indexing the oracle outcome sequences: how many planner
bodies and executor queries have run so far in this request. -/
structure Cnt where
  plan : Nat
  exec : Nat
deriving DecidableEq, Repr

/-- Runs one node body on the state: the planner and executor consume
their next oracle outcome; only the synthesizer can propagate an
exception (see `synthesizerNode`). -/
def execNodeE (o : Oracles) (c : Cnt) (n : Node) (s : AgentState) :
    Except String (AgentState × Cnt) :=
  match n with
  | .classifier => .ok (classifierNode o s, c)
  | .query_planner => .ok (queryPlannerNode (o.plan c.plan) s, { c with plan := c.plan + 1 })
  | .kg_executor =>
      if s.cypher_query = "" then .ok (kgExecutorNode (.ok []) s, c)
      else .ok (kgExecutorNode (o.exec c.exec) s, { c with exec := c.exec + 1 })
  | .synthesizer => (synthesizerNode o s).map (fun s' => (s', c))
  | .rag_fallback => .ok (ragFallbackNode o s, c)
  | .hybrid => .ok (hybridNode o s, c)
  | .escalation => .ok (escalationNode s, c)

/-- The conditional edge taken after a node, per `_build_workflow`:
`none` is the END edge. -/
def nextNode (n : Node) (s : AgentState) : Option Node :=
  match n with
  | .classifier => some (routeAfterClassification s)
  | .query_planner => some (routeAfterPlanning s)
  | .kg_executor => some (routeAfterExecution s)
  | _ => none

/-- Result of driving the state machine: the sequence of nodes entered,
the final state, and the propagated exception when one was raised. -/
structure RunRes where
  trace : List Node
  state : AgentState
  err : Option String
deriving Repr

/-- Drives the compiled workflow from a node, with fuel well above the
longest possible path (the only cycle is the bounded retry loop). -/
def runFrom (o : Oracles) : Nat → Node → AgentState → Cnt → RunRes
  | 0, _, s, _ => { trace := [], state := s, err := none }
  | f + 1, n, s, c =>
      match execNodeE o c n s with
      | .error m => { trace := [n], state := s, err := some m }
      | .ok (s', c') =>
          match nextNode n s' with
          | none => { trace := [n], state := s', err := none }
          | some n' =>
              let r := runFrom o f n' s' c'
              { trace := n :: r.trace, state := r.state, err := r.err }

/-- How many times a node occurs in a trace. -/
def cntNode (n : Node) : List Node → Nat
  | [] => 0
  | m :: tr => (if m = n then 1 else 0) + cntNode n tr

/-- `MedAssistAgent.process_query`: reads the conversation context (a
`get_history` side effect), drives the workflow, and on completion
writes the user and assistant turns back into the session (creating it
first when absent).  The first component is `none` exactly when the
workflow raised, i.e. when an exception would propagate to the caller. -/
def processQuery (o : Oracles) (mem : Option ConversationMemory)
    (q : String) (cid : Option String) (sid : Option String) (now : Int) :
    Option String × Option ConversationMemory :=
  let mem1 :=
    match mem, sid with
    | some m, some sidv =>
        if truthyS (some sidv) then some (getContextString m sidv 4 now).2 else some m
    | _, _ => mem
  let r := runFrom o 8 .classifier (initSt q cid) ⟨0, 0⟩
  match r.err with
  | some _ => (none, mem1)
  | none =>
      let response := r.state.final_response
      let mem2 :=
        match mem1, sid with
        | some m, some sidv =>
            if truthyS (some sidv) then
              let m0 := if lookupS m.conversations sidv = none
                        then createSession m sidv cid now else m
              let m1 := addMessageD m0 sidv "user" q
                [("intent", r.state.intent), ("confidence", toString r.state.confidence)] now
              some (addMessageD m1 sidv "assistant" response [] now)
            else some m
        | _, _ => mem1
      (some response, mem2)

/-- An oracle environment where every collaborator succeeds, used for
concrete witness evaluations. -/
def oBase : Oracles :=
  { classify := .ok "claim_history" (mkRat 9 10) false {}
    plan := fun _ => .ok (some "MATCH (c:Customer) RETURN c")
    exec := fun _ => .ok [{ hospital_name := some "Apollo", discount := some 10 }]
    synthGen := .ok "All good."
    hasVectorStore := false
    ragSearch := .ok []
    ragGen := .ok "rag answer"
    ragGenGeneral := .ok "general answer"
    hasConnector := false
    hybridExec := .ok []
    hybridSearch := .ok []
    hybridGen := .ok "hybrid answer" }


/-- One `addMessage` argument tuple: role, content, metadata, timestamp. -/
abbrev AddItem := String × String × List (String × String) × Int

/-- A sample message for concrete witness evaluations. -/
def msgW1 : Message := ⟨"user", "Is diabetes covered?", 1, []⟩

/-- A sample session holding one message. -/
def sessW : Session := ⟨"s1", some "CUST0001", 0, 1, [msgW1]⟩

/-- A sample store with `max_history = 2` holding `sessW`. -/
def memW : ConversationMemory := ⟨2, 60, [("s1", sessW)]⟩

/-- Three `addMessage` argument tuples (one more than `memW.max_history`). -/
def itemsW : List AddItem := [("user", "m1", [], 3), ("assistant", "m2", [], 4), ("user", "m3", [], 5)]

/-- A session last accessed at second 1 (expired at `now = 7200` under a
60-minute TTL). -/
def sessOld : Session := ⟨"old", none, 0, 1, []⟩

/-- A session last accessed at second 7000 (fresh at `now = 7200`). -/
def sessNew : Session := ⟨"new", none, 0, 7000, [msgW1]⟩

/-- A sample store holding one expired and one fresh session. -/
def memW2 : ConversationMemory := ⟨10, 60, [("old", sessOld), ("new", sessNew)]⟩

/-- A state as left by a failed first execution: non-empty error, one
attempt recorded, the stale query still present. -/
def stRetryable : AgentState :=
  { initSt "q" (some "CUST0001") with
      error := "boom", attempt_count := 1,
      cypher_query := "MATCH (c:Customer) RETURN c" }

/-- A classified state with low confidence and a structured intent. -/
def stLowConf : AgentState :=
  { initSt "q" none with
      intent := "hospital_finder", confidence := mkRat 1 2, needs_hybrid := some false }

/-- Looking up the key just inserted yields the inserted session. -/
theorem lookupS_insertS_self (l : List (String × Session)) (sid : String) (s : Session) :
    lookupS (insertS l sid s) sid = some s := by
  induction l with
  | nil => simp [insertS, lookupS]
  | cons p rest ih =>
      obtain ⟨k, v⟩ := p
      by_cases h : k = sid
      · simp [insertS, h, lookupS]
      · simp [insertS, h, lookupS, ih]

/-- Inserting one key does not change the lookup of another. -/
theorem lookupS_insertS_ne (l : List (String × Session)) (sid k : String) (s : Session)
    (h : k ≠ sid) : lookupS (insertS l sid s) k = lookupS l k := by
  induction l with
  | nil => simp [insertS, lookupS, Ne.symm h]
  | cons p rest ih =>
      obtain ⟨k0, v⟩ := p
      by_cases h0 : k0 = sid
      · subst h0
        simp [insertS, lookupS, Ne.symm h]
      · simp only [insertS, if_neg h0, lookupS]
        by_cases h1 : k0 = k <;> simp [h1, ih]

/-- Every pair of the updated dict is the new binding or an old pair. -/
theorem mem_insertS (l : List (String × Session)) (sid : String) (s : Session)
    (q : String × Session) (h : q ∈ insertS l sid s) : q = (sid, s) ∨ q ∈ l := by
  induction l with
  | nil => simpa [insertS] using h
  | cons p rest ih =>
      obtain ⟨k, v⟩ := p
      by_cases h0 : k = sid
      · simp only [insertS, if_pos h0] at h
        rcases List.mem_cons.mp h with h1 | h1
        · left; exact h1
        · right; exact List.mem_cons_of_mem _ h1
      · simp only [insertS, if_neg h0] at h
        rcases List.mem_cons.mp h with h1 | h1
        · right; exact h1 ▸ List.mem_cons_self _ _
        · rcases ih h1 with h2 | h2
          · left; exact h2
          · right; exact List.mem_cons_of_mem _ h2

/-- A successful lookup names a pair of the dict. -/
theorem lookupS_mem (l : List (String × Session)) (k : String) (s : Session)
    (h : lookupS l k = some s) : (k, s) ∈ l := by
  induction l with
  | nil => simp [lookupS] at h
  | cons p rest ih =>
      obtain ⟨k0, v⟩ := p
      by_cases h0 : k0 = k
      · subst h0
        simp only [lookupS, if_pos rfl] at h
        cases h
        exact List.mem_cons_self _ _
      · simp only [lookupS, if_neg h0] at h
        exact List.mem_cons_of_mem _ (ih h)

/-- With distinct keys, membership determines the lookup. -/
theorem lookupS_of_mem_nodup (l : List (String × Session)) (k : String) (s : Session)
    (h : (k, s) ∈ l) (hnd : (l.map Prod.fst).Nodup) : lookupS l k = some s := by
  induction l with
  | nil => simp at h
  | cons p rest ih =>
      obtain ⟨k0, v⟩ := p
      simp only [List.map_cons, List.nodup_cons] at hnd
      rcases List.mem_cons.mp h with h1 | h1
      · cases h1
        simp [lookupS]
      · have hk : k0 ≠ k := by
          intro he
          exact hnd.1 (he ▸ (List.mem_map.mpr ⟨(k, s), h1, rfl⟩))
        simp only [lookupS, if_neg hk]
        exact ih h1 hnd.2

/-- The last-`n` slice of a list already no longer than `n` is the list. -/
theorem pyTakeLast_of_le (n : Nat) (l : List α) (h : l.length ≤ n) :
    pyTakeLast n l = l := by
  simp [pyTakeLast, Nat.sub_eq_zero_of_le h]

/-- Length of the last-`n` slice. -/
theorem pyTakeLast_len (n : Nat) (l : List α) :
    (pyTakeLast n l).length = min l.length n := by
  simp only [pyTakeLast, List.length_drop]
  omega

/-- The last-`n` slice through reversal. -/
theorem pyTakeLast_eq_reverse (n : Nat) (l : List α) :
    pyTakeLast n l = (l.reverse.take n).reverse := by
  rw [show pyTakeLast n l = l.rtake n from rfl, List.rtake_eq_reverse_take_reverse]

/-- Trimming again after appending to an already trimmed list is the same
as trimming the full appended list. -/
theorem pyTakeLast_append_left (n : Nat) (xs ys : List α) :
    pyTakeLast n (pyTakeLast n xs ++ ys) = pyTakeLast n (xs ++ ys) := by
  simp only [pyTakeLast_eq_reverse, List.reverse_append, List.reverse_reverse]
  rw [List.take_append_eq_append_take, List.take_append_eq_append_take, List.take_take]
  congr 3
  omega

/-- When the appended part alone reaches `n`, the prefix is irrelevant. -/
theorem pyTakeLast_append_right (n : Nat) (l0 ms : List α) (h : n ≤ ms.length) :
    pyTakeLast n (l0 ++ ms) = pyTakeLast n ms := by
  simp only [pyTakeLast, List.length_append]
  rw [show l0.length + ms.length - n = l0.length + (ms.length - n) by omega,
    List.drop_append]

/-- The conditional trim of `add_message` is unconditionally the last-`n`
slice. -/
theorem trim_eq (m : Nat) (l : List α) :
    (if l.length > m then pyTakeLast m l else l) = pyTakeLast m l := by
  split
  · rfl
  · rw [pyTakeLast_of_le]
    omega

/-- On an existing session, `add_message` returns: append, refresh
`last_accessed`, trim to the last `max_history`; and no warning fires. -/
theorem addMessage_existing (mem : ConversationMemory) (sid role content : String)
    (md : List (String × String)) (now : Int) (sess : Session)
    (h : lookupS mem.conversations sid = some sess) :
    addMessage mem sid role content md now =
      .ok { mem with conversations := insertS mem.conversations sid (sessAfterAdd mem.max_history sess role content md now) } false := by
  simp only [addMessage, h, sessAfterAdd]
  rw [trim_eq]

/-- The observable store after `add_message` on an existing session. -/
theorem addMessageD_existing (mem : ConversationMemory) (sid role content : String)
    (md : List (String × String)) (now : Int) (sess : Session)
    (h : lookupS mem.conversations sid = some sess) :
    addMessageD mem sid role content md now =
      { mem with conversations := insertS mem.conversations sid (sessAfterAdd mem.max_history sess role content md now) } := by
  unfold addMessageD
  rw [addMessage_existing mem sid role content md now sess h]

/-- Looking up the touched session after `add_message` on an existing
session. -/
theorem addMessageD_existing_lookup (mem : ConversationMemory) (sid role content : String)
    (md : List (String × String)) (now : Int) (sess : Session)
    (h : lookupS mem.conversations sid = some sess) :
    lookupS (addMessageD mem sid role content md now).conversations sid =
      some (sessAfterAdd mem.max_history sess role content md now) := by
  rw [addMessageD_existing mem sid role content md now sess h]
  exact lookupS_insertS_self _ _ _

/-- `add_message` never changes the `max_history` bound. -/
theorem addMessageD_max_history (mem : ConversationMemory) (sid role content : String)
    (md : List (String × String)) (now : Int) :
    (addMessageD mem sid role content md now).max_history = mem.max_history := by
  cases h : lookupS mem.conversations sid with
  | some sess => rw [addMessageD_existing mem sid role content md now sess h]
  | none => simp only [addMessageD, addMessage, h]

/-- `addMany` on the empty list is the identity. -/
theorem addMany_nil (mem : ConversationMemory) (sid : String) :
    addMany mem sid [] = mem := rfl

/-- Peeling one call off `addMany`. -/
theorem addMany_cons (mem : ConversationMemory) (sid : String) (it : AddItem)
    (rest : List AddItem) :
    addMany mem sid (it :: rest) =
      addMany (addMessageD mem sid it.1 it.2.1 it.2.2.1 it.2.2.2) sid rest := rfl

/-- A non-empty burst of `addMany` calls on an existing session leaves the
last `max_history` elements of the old messages followed by all the sent
messages, in order. -/
theorem addMany_lookup (sid : String) (items : List AddItem) :
    ∀ (mem : ConversationMemory) (sess : Session),
      lookupS mem.conversations sid = some sess → items ≠ [] →
      ∃ s', lookupS (addMany mem sid items).conversations sid = some s' ∧
        s'.messages = pyTakeLast mem.max_history (sess.messages ++ items.map mkMsg) := by
  induction items with
  | nil => intro _ _ _ hne; exact absurd rfl hne
  | cons it rest ih =>
      intro mem sess h _
      rw [addMany_cons]
      by_cases hr : rest = []
      · subst hr
        rw [addMany_nil]
        refine ⟨_, addMessageD_existing_lookup mem sid it.1 it.2.1 it.2.2.1 it.2.2.2 sess h, ?_⟩
        simp [sessAfterAdd, mkMsg]
      · obtain ⟨s', h1, h2⟩ := ih (addMessageD mem sid it.1 it.2.1 it.2.2.1 it.2.2.2) _
          (addMessageD_existing_lookup mem sid it.1 it.2.1 it.2.2.1 it.2.2.2 sess h) hr
        refine ⟨s', h1, ?_⟩
        rw [h2, addMessageD_max_history]
        simp only [sessAfterAdd, pyTakeLast_append_left, List.append_assoc,
          List.singleton_append, List.map_cons, mkMsg]

/-- C5 (code bug): for a session id absent from the store, `add_message`
does not complete.  `add_message` acquires `self.lock` — a non-reentrant
`threading.Lock` — for its whole body and, finding the session absent,
logs the warning and calls `create_session`, which starts with
`with self.lock:` on the same lock: the thread blocks forever on the
lock it already holds.  No session is created and no message appended,
contrary to the documented auto-create behaviour. -/
theorem addMessage_absent_deadlocks (mem : ConversationMemory) (sid role content : String)
    (md : List (String × String)) (now : Int)
    (h : lookupS mem.conversations sid = none) :
    addMessage mem sid role content md now = .deadlock := by
  simp [addMessage, h]

/-- Witness for `addMessage_absent_deadlocks` at a concrete store. -/
theorem addMessage_absent_deadlocks_witness :
    lookupS memW.conversations "s2" = none ∧
    addMessage memW "s2" "user" "hi" [] 9 = AddMessageResult.deadlock :=
  ⟨by decide, addMessage_absent_deadlocks memW "s2" "user" "hi" [] 9 (by decide)⟩

/-- C7: persisting a stored session and loading it by id on a fresh store
instance reproduces the identical ordered message list (roles, contents,
timestamps and metadata are fields of each reproduced `Message`). -/
theorem persist_load_roundtrip (mem : ConversationMemory) (disk : Disk) (sid : String)
    (sess : Session) (h : lookupS mem.conversations sid = some sess)
    (mh : Nat) (tl now now2 : Int) :
    (loadSession (persistSession true mem disk sid) ⟨mh, tl, []⟩ sid now).2 = true ∧
    (getHistory (loadSession (persistSession true mem disk sid) ⟨mh, tl, []⟩ sid now).1
        sid none now2).1 = sess.messages := by
  have hdisk : persistSession true mem disk sid = insertS disk sid sess := by
    simp [persistSession, h]
  constructor
  · simp [loadSession, hdisk, lookupS_insertS_self]
  · simp [loadSession, hdisk, lookupS_insertS_self, getHistory]

/-- Witness for `persist_load_roundtrip` at a concrete store. -/
theorem persist_load_roundtrip_witness :
    lookupS memW.conversations "s1" = some sessW ∧
    ((loadSession (persistSession true memW [] "s1") ⟨5, 30, []⟩ "s1" 50).2 = true ∧
      (getHistory (loadSession (persistSession true memW [] "s1") ⟨5, 30, []⟩ "s1" 50).1
          "s1" none 60).1 = sessW.messages) :=
  ⟨by decide, persist_load_roundtrip memW [] "s1" sessW (by decide) 5 30 50 60⟩

/-- C8: `get_history` of an unknown session returns the empty list and
leaves the store untouched (total, no exception), and on a known session
it refreshes `last_accessed` as a side effect of the read, leaving the
messages unchanged. -/
theorem getHistory_unknown_and_touch :
    (∀ (mem : ConversationMemory) (sid : String) (lastN : Option Nat) (now : Int),
        lookupS mem.conversations sid = none → getHistory mem sid lastN now = ([], mem))
    ∧ (∀ (mem : ConversationMemory) (sid : String) (sess : Session) (lastN : Option Nat) (now : Int),
        lookupS mem.conversations sid = some sess →
        ∃ s', lookupS ((getHistory mem sid lastN now).2).conversations sid = some s' ∧
          s'.last_accessed = now ∧ s'.messages = sess.messages) := by
  constructor
  · intro mem sid lastN now h
    simp [getHistory, h]
  · intro mem sid sess lastN now h
    refine ⟨{ sess with last_accessed := now }, ?_, rfl, rfl⟩
    simp only [getHistory, h]
    exact lookupS_insertS_self _ _ _

/-- Witness for `getHistory_unknown_and_touch` at a concrete store. -/
theorem getHistory_unknown_and_touch_witness :
    (lookupS memW.conversations "nope" = none ∧
      getHistory memW "nope" none 9 = ([], memW)) ∧
    (lookupS memW.conversations "s1" = some sessW ∧
      ∃ s', lookupS ((getHistory memW "s1" none 9).2).conversations "s1" = some s' ∧
        s'.last_accessed = 9 ∧ s'.messages = sessW.messages) :=
  ⟨⟨by decide, getHistory_unknown_and_touch.1 memW "nope" none 9 (by decide)⟩,
   ⟨by decide, getHistory_unknown_and_touch.2 memW "s1" sessW none 9 (by decide)⟩⟩

/-- C10: on a present session, `get_history` with `last_n = 0` returns the
whole message list (0 is falsy, so the slice is skipped), exactly as
`last_n = None` does. -/
theorem getHistory_zero_returns_all (mem : ConversationMemory) (sid : String)
    (sess : Session) (now : Int) (h : lookupS mem.conversations sid = some sess) :
    (getHistory mem sid (some 0) now).1 = sess.messages ∧
    (getHistory mem sid none now).1 = sess.messages := by
  simp [getHistory, h]

/-- Witness for `getHistory_zero_returns_all` at a concrete store. -/
theorem getHistory_zero_returns_all_witness :
    lookupS memW.conversations "s1" = some sessW ∧
    ((getHistory memW "s1" (some 0) 9).1 = sessW.messages ∧
      (getHistory memW "s1" none 9).1 = sessW.messages) :=
  ⟨by decide, getHistory_zero_returns_all memW "s1" sessW 9 (by decide)⟩

/-- The session written back by an append respects the bound. -/
theorem sessAfterAdd_len (maxH : Nat) (sess : Session) (role content : String)
    (md : List (String × String)) (now : Int) :
    (sessAfterAdd maxH sess role content md now).messages.length ≤ maxH := by
  simp only [sessAfterAdd, pyTakeLast_len]
  omega

/-- One `add_message` call preserves the size bound on every session
(trivially so on the deadlock path, which never mutates the store). -/
theorem addMessageD_sizeInv (mem : ConversationMemory) (sid role content : String)
    (md : List (String × String)) (now : Int) (hinv : SizeInv mem) :
    SizeInv (addMessageD mem sid role content md now) := by
  cases h : lookupS mem.conversations sid with
  | some sess =>
      rw [addMessageD_existing mem sid role content md now sess h]
      intro p hp
      rcases mem_insertS _ _ _ _ hp with h1 | h1
      · subst h1
        exact sessAfterAdd_len _ _ _ _ _ _
      · exact hinv p h1
  | none =>
      simp only [addMessageD, addMessage, h]
      exact hinv

/-- Deleting a batch of keys only removes pairs. -/
theorem foldl_removeS_subset (ks : List String) :
    ∀ (l : List (String × Session)) (p : String × Session),
      p ∈ ks.foldl removeS l → p ∈ l := by
  induction ks with
  | nil => intro l p hp; simpa using hp
  | cons k rest ih =>
      intro l p hp
      rw [List.foldl_cons] at hp
      exact List.mem_of_mem_filter (ih (removeS l k) p hp)

/-- Every public store operation preserves the per-session size bound
(the snapshots `load` reads back are assumed within the bound, which the
store's own `persist` output satisfies). -/
theorem applyOp_sizeInv (mem : ConversationMemory) (disk : Disk) (op : MemOp)
    (hinv : SizeInv mem) (hdisk : DiskInv disk mem.max_history) :
    SizeInv (applyOp mem disk op).1 := by
  cases op with
  | create sid cid now =>
      simp only [applyOp, createSession]
      intro p hp
      rcases mem_insertS _ _ _ _ hp with h1 | h1
      · subst h1; simp
      · exact hinv p h1
  | add sid role content md now => exact addMessageD_sizeInv mem sid role content md now hinv
  | history sid lastN now =>
      simp only [applyOp]
      cases h : lookupS mem.conversations sid with
      | none => simp only [getHistory, h]; exact hinv
      | some sess =>
          simp only [getHistory, h]
          intro p hp
          rcases mem_insertS _ _ _ _ hp with h1 | h1
          · subst h1
            simpa using hinv _ (lookupS_mem _ _ _ h)
          · exact hinv p h1
  | clear sid =>
      simp only [applyOp]
      cases h : lookupS mem.conversations sid with
      | none => simp only [clearSession, h]; exact hinv
      | some sess =>
          simp only [clearSession, h]
          intro p hp
          exact hinv p (List.mem_of_mem_filter hp)
  | cleanup pOk now =>
      simp only [applyOp, cleanupExpiredSessions]
      intro p hp
      exact hinv p (foldl_removeS_subset _ _ p hp)
  | load sid now =>
      simp only [applyOp]
      cases h : lookupS disk sid with
      | none => simp only [loadSession, h]; exact hinv
      | some d =>
          simp only [loadSession, h]
          intro p hp
          rcases mem_insertS _ _ _ _ hp with h1 | h1
          · subst h1
            simpa using hdisk _ (lookupS_mem _ _ _ h)
          · exact hinv p h1

/-- C4: after every store operation each session holds at most
`max_history` messages — the trim applied inside each append keeps the
bound, and every other operation only rewrites access times, removes
sessions, or reloads snapshots that were written trimmed (the `DiskInv`
hypothesis) — and `max_history + k` appends (`k ≥ 1`) on an existing
session leave exactly the last `max_history` appended messages in their
original append order. -/
theorem history_bounded_and_rolling :
    (∀ (mem : ConversationMemory) (disk : Disk) (op : MemOp),
        SizeInv mem → DiskInv disk mem.max_history → SizeInv (applyOp mem disk op).1)
    ∧ (∀ (mem : ConversationMemory) (sid : String) (sess : Session)
        (items : List AddItem) (k : Nat),
        lookupS mem.conversations sid = some sess →
        items.length = mem.max_history + k → 1 ≤ k →
        ∃ s', lookupS (addMany mem sid items).conversations sid = some s' ∧
          s'.messages = pyTakeLast mem.max_history (items.map mkMsg) ∧
          s'.messages.length = mem.max_history) := by
  refine ⟨applyOp_sizeInv, ?_⟩
  intro mem sid sess items k h hlen hk
  have hne : items ≠ [] := by
    intro he
    rw [he] at hlen
    simp at hlen
    omega
  obtain ⟨s', h1, h2⟩ := addMany_lookup sid items mem sess h hne
  refine ⟨s', h1, ?_, ?_⟩
  · rw [h2, pyTakeLast_append_right]
    simp only [List.length_map]
    omega
  · rw [h2, pyTakeLast_len]
    simp only [List.length_append, List.length_map]
    omega

/-- Witness for `history_bounded_and_rolling` at a concrete store. -/
theorem history_bounded_and_rolling_witness :
    (lookupS memW.conversations "s1" = some sessW ∧
      itemsW.length = memW.max_history + 1 ∧ 1 ≤ 1) ∧
    (∃ s', lookupS (addMany memW "s1" itemsW).conversations "s1" = some s' ∧
      s'.messages = pyTakeLast memW.max_history (itemsW.map mkMsg) ∧
      s'.messages.length = memW.max_history) :=
  ⟨⟨by decide, by decide, by decide⟩,
   history_bounded_and_rolling.2 memW "s1" sessW itemsW 1 (by decide) (by decide) (by decide)⟩

/-- With distinct keys, two stored pairs with the same key are equal. -/
theorem nodup_key_eq (l : List (String × Session))
    (hnd : (l.map Prod.fst).Nodup) (q p : String × Session)
    (hq : q ∈ l) (hp : p ∈ l) (he : q.1 = p.1) : q = p := by
  induction l with
  | nil => simp at hq
  | cons a rest ih =>
      simp only [List.map_cons, List.nodup_cons] at hnd
      rcases List.mem_cons.mp hq with h1 | h1 <;> rcases List.mem_cons.mp hp with h2 | h2
      · rw [h1, h2]
      · exfalso
        apply hnd.1
        rw [h1] at he
        exact he ▸ List.mem_map.mpr ⟨p, h2, rfl⟩
      · exfalso
        apply hnd.1
        rw [h2] at he
        exact he ▸ List.mem_map.mpr ⟨q, h1, rfl⟩
      · exact ih hnd.2 h1 h2

/-- Under distinct keys, a stored pair's key is among the keys of the
filtered list exactly when the pair itself satisfies the filter. -/
theorem mem_filtered_keys_iff (l : List (String × Session)) (f : (String × Session) → Bool)
    (hnd : (l.map Prod.fst).Nodup) (p : String × Session) (hp : p ∈ l) :
    p.1 ∈ (l.filter f).map (·.1) ↔ f p = true := by
  constructor
  · intro h
    obtain ⟨q, hq, he⟩ := List.mem_map.mp h
    have hq1 : q ∈ l := List.mem_of_mem_filter hq
    have hq2 : f q = true := (List.mem_filter.mp hq).2
    rwa [nodup_key_eq l hnd q p hq1 hp he] at hq2
  · intro h
    exact List.mem_map.mpr ⟨p, List.mem_filter.mpr ⟨hp, h⟩, rfl⟩

/-- Deleting a batch of keys is filtering those keys out. -/
theorem foldl_removeS_filter (ks : List String) :
    ∀ (l : List (String × Session)),
      ks.foldl removeS l = l.filter (fun p => !(decide (p.1 ∈ ks))) := by
  induction ks with
  | nil =>
      intro l
      simp
  | cons k rest ih =>
      intro l
      rw [List.foldl_cons, ih, removeS, List.filter_filter]
      apply List.filter_congr
      intro a _
      by_cases h1 : a.1 = k <;> by_cases h2 : a.1 ∈ rest <;> simp [h1, h2]

/-- A batch of best-effort persists leaves the other keys of the disk
untouched. -/
theorem foldl_persist_notmem (mem : ConversationMemory) (pOk : String → Bool)
    (ks : List String) (k : String) (hnot : k ∉ ks) :
    ∀ d : Disk,
      lookupS (ks.foldl (fun d sid => persistSession (pOk sid) mem d sid) d) k =
        lookupS d k := by
  induction ks with
  | nil => intro d; rfl
  | cons k0 rest ih =>
      intro d
      rw [List.foldl_cons, ih (fun h => hnot (List.mem_cons_of_mem _ h))]
      have hk : k ≠ k0 := fun h => hnot (h ▸ List.mem_cons_self _ _)
      unfold persistSession
      split
      · cases lookupS mem.conversations k0 with
        | some s0 => exact lookupS_insertS_ne _ _ _ _ hk
        | none => rfl
      · rfl

/-- After the batch of persists, each successfully persisted key maps to
its in-memory session. -/
theorem foldl_persist_lookup (mem : ConversationMemory) (pOk : String → Bool)
    (ks : List String) (hk : ks.Nodup) (k : String) (s : Session)
    (hmem : k ∈ ks) (hok : pOk k = true)
    (hlook : lookupS mem.conversations k = some s) :
    ∀ d : Disk,
      lookupS (ks.foldl (fun d sid => persistSession (pOk sid) mem d sid) d) k =
        some s := by
  induction ks with
  | nil => simp at hmem
  | cons k0 rest ih =>
      intro d
      rw [List.foldl_cons]
      rcases List.nodup_cons.mp hk with ⟨hnot0, hndrest⟩
      by_cases he : k = k0
      · subst he
        rw [foldl_persist_notmem mem pOk rest k hnot0]
        simp [persistSession, hok, hlook, lookupS_insertS_self]
      · exact ih hndrest (List.mem_cons.mp hmem |>.resolve_left he) _

/-- C6: `cleanup_expired_sessions` removes exactly the sessions whose
`last_accessed` lies more than `ttl_minutes` before `now`, leaving every
fresh session in place unchanged (the store keeps precisely the filtered
list, in order); it returns the number of sessions removed; and each
removed session whose best-effort snapshot write succeeded is on disk.
Dict keys are unique, which the `Nodup` hypothesis records. -/
theorem cleanup_removes_exactly_expired (mem : ConversationMemory) (disk : Disk)
    (pOk : String → Bool) (now : Int)
    (hnd : (mem.conversations.map Prod.fst).Nodup) :
    (cleanupExpiredSessions mem disk pOk now).1.conversations =
      mem.conversations.filter (fun p => !(expiredP mem.ttl_minutes now p.2)) ∧
    (cleanupExpiredSessions mem disk pOk now).2.2 =
      (mem.conversations.filter (fun p => expiredP mem.ttl_minutes now p.2)).length ∧
    (∀ p ∈ mem.conversations, expiredP mem.ttl_minutes now p.2 = true → pOk p.1 = true →
      lookupS (cleanupExpiredSessions mem disk pOk now).2.1 p.1 = some p.2) := by
  refine ⟨?_, ?_, ?_⟩
  · simp only [cleanupExpiredSessions, foldl_removeS_filter]
    apply List.filter_congr
    intro p hp
    have hiff := mem_filtered_keys_iff mem.conversations
      (fun q => expiredP mem.ttl_minutes now q.2) hnd p hp
    have hdec : decide (p.1 ∈ (mem.conversations.filter
        (fun q => expiredP mem.ttl_minutes now q.2)).map (·.1)) =
        expiredP mem.ttl_minutes now p.2 := by
      by_cases hx : expiredP mem.ttl_minutes now p.2 = true
      · simp [hx, hiff.mpr hx]
      · rw [Bool.not_eq_true] at hx
        rw [hx, decide_eq_false_iff_not]
        intro hm
        exact absurd (hiff.mp hm) (by simp [hx])
    rw [hdec]
  · simp [cleanupExpiredSessions]
  · intro p hp hexp hok
    simp only [cleanupExpiredSessions]
    have hndex : ((mem.conversations.filter
        (fun q => expiredP mem.ttl_minutes now q.2)).map (·.1)).Nodup :=
      ((List.filter_sublist _).map _).nodup hnd
    apply foldl_persist_lookup mem pOk _ hndex p.1 p.2
    · exact List.mem_map.mpr ⟨p, List.mem_filter.mpr ⟨hp, hexp⟩, rfl⟩
    · exact hok
    · exact lookupS_of_mem_nodup _ _ _ hp hnd

/-- Witness for `cleanup_removes_exactly_expired` at a concrete store with
one expired and one fresh session. -/
theorem cleanup_removes_exactly_expired_witness :
    ((memW2.conversations.map Prod.fst).Nodup ∧
      ("old", sessOld) ∈ memW2.conversations ∧
      expiredP memW2.ttl_minutes 7200 sessOld = true) ∧
    ((cleanupExpiredSessions memW2 [] (fun _ => true) 7200).1.conversations =
        memW2.conversations.filter (fun p => !(expiredP memW2.ttl_minutes 7200 p.2)) ∧
      (cleanupExpiredSessions memW2 [] (fun _ => true) 7200).2.2 =
        (memW2.conversations.filter (fun p => expiredP memW2.ttl_minutes 7200 p.2)).length ∧
      lookupS (cleanupExpiredSessions memW2 [] (fun _ => true) 7200).2.1 "old" = some sessOld) :=
  have h := cleanup_removes_exactly_expired memW2 [] (fun _ => true) 7200 (by decide)
  ⟨⟨by decide, by decide, by decide⟩,
   h.1, h.2.1, h.2.2 ("old", sessOld) (by decide) (by decide) (by decide)⟩

/-- C1: `route_after_classification` decides by exactly the claimed
priority — escalation intent, then the hybrid flag, then the 0.7
confidence threshold, then the general/document intents, then a missing
customer id, else the planner — and in particular every state with
confidence below the threshold, no hybrid flag and a non-escalation
intent routes to the RAG fallback, regardless of intent. -/
theorem routeAfterClassification_priority :
    (∀ s : AgentState,
      routeAfterClassification s =
        (if s.intent = "escalation" then Node.escalation
         else if s.needs_hybrid.getD false then Node.hybrid
         else if s.confidence < CONFIDENCE_THRESHOLD then Node.rag_fallback
         else if s.intent ∈ generalIntents then Node.rag_fallback
         else if truthyS s.customer_id = false then Node.escalation
         else Node.query_planner))
    ∧ (∀ s : AgentState, s.confidence < CONFIDENCE_THRESHOLD →
        s.intent ≠ "escalation" → s.needs_hybrid.getD false = false →
        routeAfterClassification s = Node.rag_fallback) := by
  constructor
  · intro s
    unfold routeAfterClassification
    split_ifs <;> simp_all
  · intro s h1 h2 h3
    unfold routeAfterClassification
    simp [h1, h2, h3]

/-- Witness for `routeAfterClassification_priority`: a concrete low
confidence classification with a structured intent still falls back. -/
theorem routeAfterClassification_priority_witness :
    (stLowConf.confidence < CONFIDENCE_THRESHOLD ∧ stLowConf.intent ≠ "escalation" ∧
      stLowConf.needs_hybrid.getD false = false) ∧
    routeAfterClassification stLowConf = Node.rag_fallback :=
  ⟨⟨by decide, by decide, by decide⟩,
   routeAfterClassification_priority.2 stLowConf (by decide) (by decide) (by decide)⟩

/-- The classifier node never touches the retry counter, the results or
the query. -/
theorem classifierNode_fields (o : Oracles) (s : AgentState) :
    (classifierNode o s).attempt_count = s.attempt_count ∧
    (classifierNode o s).query_results = s.query_results := by
  unfold classifierNode
  cases o.classify <;> exact ⟨rfl, rfl⟩

/-- The planner node never touches the retry counter, the intent or the
results. -/
theorem queryPlannerNode_fields (res : PlanRes) (s : AgentState) :
    (queryPlannerNode res s).attempt_count = s.attempt_count ∧
    (queryPlannerNode res s).intent = s.intent ∧
    (queryPlannerNode res s).query_results = s.query_results := by
  cases res with
  | ok qopt => by_cases ht : truthyS qopt = true <;> simp [queryPlannerNode, ht]
  | raise m => simp [queryPlannerNode]

/-- The general-knowledge fallback only writes the response text. -/
theorem ragGeneralKnowledge_attempt (o : Oracles) (s : AgentState) :
    (ragGeneralKnowledge o s).attempt_count = s.attempt_count := by
  unfold ragGeneralKnowledge
  cases o.ragGenGeneral <;> rfl

/-- The RAG fallback node only writes the response text. -/
theorem ragFallbackNode_attempt (o : Oracles) (s : AgentState) :
    (ragFallbackNode o s).attempt_count = s.attempt_count := by
  unfold ragFallbackNode ragGeneralKnowledge
  repeat' split
  all_goals rfl

/-- The hybrid node never touches the retry counter. -/
theorem hybridNode_attempt (o : Oracles) (s : AgentState) :
    (hybridNode o s).attempt_count = s.attempt_count := by
  unfold hybridNode
  cases o.hybridGen <;> simp

/-- The escalation node never touches the retry counter. -/
theorem escalationNode_attempt (s : AgentState) :
    (escalationNode s).attempt_count = s.attempt_count := rfl

/-- A successful synthesizer run only writes the response text. -/
theorem synthesizerNode_ok_fields (o : Oracles) (s s' : AgentState)
    (h : synthesizerNode o s = .ok s') :
    s'.attempt_count = s.attempt_count ∧ s'.intent = s.intent := by
  unfold synthesizerNode at h
  split at h
  · cases h
    exact ⟨rfl, rfl⟩
  · cases hg : o.synthGen with
    | ok t =>
        rw [hg] at h
        cases h
        exact ⟨rfl, rfl⟩
    | raise m =>
        rw [hg] at h
        cases hf : generateFallbackResponse s.intent s.query_results with
        | error e =>
            rw [hf] at h
            simp [Except.map] at h
        | ok r =>
            rw [hf] at h
            simp only [Except.map] at h
            cases h
            exact ⟨rfl, rfl⟩

/-- A run that starts at a terminal node enters only that node, and the
retry counter is unchanged. -/
theorem runFrom_terminal (o : Oracles) (f : Nat) (n : Node) (s : AgentState) (c : Cnt)
    (hn : n = Node.synthesizer ∨ n = Node.rag_fallback ∨ n = Node.hybrid ∨
      n = Node.escalation) :
    cntNode Node.query_planner (runFrom o f n s c).trace = 0 ∧
    cntNode Node.kg_executor (runFrom o f n s c).trace = 0 ∧
    (runFrom o f n s c).state.attempt_count = s.attempt_count := by
  cases f with
  | zero => simp [runFrom, cntNode]
  | succ f =>
      rcases hn with h | h | h | h <;> subst h
      · rw [runFrom]
        cases hs : synthesizerNode o s with
        | error m => simp [execNodeE, hs, Except.map, cntNode]
        | ok s' =>
            have ha := (synthesizerNode_ok_fields o s s' hs).1
            simp [execNodeE, hs, Except.map, nextNode, cntNode, ha]
      · simp [runFrom, execNodeE, nextNode, cntNode, ragFallbackNode_attempt]
      · simp [runFrom, execNodeE, nextNode, cntNode, hybridNode_attempt]
      · simp [runFrom, execNodeE, nextNode, cntNode, escalationNode_attempt]

/-- No planner entry occurs after reaching a terminal node. -/
theorem cntP_terminal (o : Oracles) (f : Nat) (n : Node)
    (hn : n = Node.synthesizer ∨ n = Node.rag_fallback ∨ n = Node.hybrid ∨
      n = Node.escalation) (s : AgentState) (c : Cnt) :
    cntNode Node.query_planner (runFrom o f n s c).trace = 0 :=
  (runFrom_terminal o f n s c hn).1

/-- No executor entry occurs after reaching a terminal node. -/
theorem cntE_terminal (o : Oracles) (f : Nat) (n : Node)
    (hn : n = Node.synthesizer ∨ n = Node.rag_fallback ∨ n = Node.hybrid ∨
      n = Node.escalation) (s : AgentState) (c : Cnt) :
    cntNode Node.kg_executor (runFrom o f n s c).trace = 0 :=
  (runFrom_terminal o f n s c hn).2.1

/-- Terminal nodes leave the retry counter unchanged. -/
theorem attempt_terminal (o : Oracles) (f : Nat) (n : Node)
    (hn : n = Node.synthesizer ∨ n = Node.rag_fallback ∨ n = Node.hybrid ∨
      n = Node.escalation) (s : AgentState) (c : Cnt) :
    (runFrom o f n s c).state.attempt_count = s.attempt_count :=
  (runFrom_terminal o f n s c hn).2.2

/-- Bounds along the only cycle of the workflow, by fuel induction: from
the executor (entered with a clean error and a truthy query, as the
planner route guarantees) and from the planner, the planner appears at
most twice in the remaining trace (only once when the attempt counter is
already positive), the executor at most twice, and the retry counter
never passes 2. -/
theorem run_loop_bounds (o : Oracles) : ∀ f : Nat,
    (∀ s c, s.error = "" → s.cypher_query ≠ "" →
      cntNode Node.query_planner (runFrom o f Node.kg_executor s c).trace ≤
        (if s.attempt_count = 0 then 1 else 0) ∧
      cntNode Node.kg_executor (runFrom o f Node.kg_executor s c).trace ≤
        (if s.attempt_count = 0 then 2 else 1) ∧
      (runFrom o f Node.kg_executor s c).state.attempt_count ≤
        (if s.attempt_count = 0 then 2 else s.attempt_count + 1))
    ∧ (∀ s c,
      cntNode Node.query_planner (runFrom o f Node.query_planner s c).trace ≤
        (if s.attempt_count = 0 then 2 else 1) ∧
      cntNode Node.kg_executor (runFrom o f Node.query_planner s c).trace ≤
        (if s.attempt_count = 0 then 2 else 1) ∧
      (runFrom o f Node.query_planner s c).state.attempt_count ≤
        (if s.attempt_count = 0 then 2 else s.attempt_count + 1)) := by
  intro f
  induction f with
  | zero =>
      constructor
      · intro s c _ _
        refine ⟨?_, ?_, ?_⟩ <;> simp only [runFrom, cntNode] <;> split <;> omega
      · intro s c
        refine ⟨?_, ?_, ?_⟩ <;> simp only [runFrom, cntNode] <;> split <;> omega
  | succ f ih =>
      constructor
      · intro s c herr hq
        rw [runFrom]
        simp only [execNodeE, if_neg hq, kgExecutorNode]
        cases hx : o.exec c.exec with
        | ok rows =>
            simp only [nextNode, routeAfterExecution]
            dsimp only
            split
            · rename_i hcon
              exact absurd herr hcon
            · split
              · refine ⟨?_, ?_, ?_⟩ <;>
                  simp [cntNode, cntP_terminal o f Node.rag_fallback (by simp),
                    cntE_terminal o f Node.rag_fallback (by simp),
                    attempt_terminal o f Node.rag_fallback (by simp)] <;>
                  first
                  | omega
                  | (split <;> omega)
              · refine ⟨?_, ?_, ?_⟩ <;>
                  simp [cntNode, cntP_terminal o f Node.synthesizer (by simp),
                    cntE_terminal o f Node.synthesizer (by simp),
                    attempt_terminal o f Node.synthesizer (by simp)] <;>
                  first
                  | omega
                  | (split <;> omega)
        | raise m =>
            simp only [nextNode, routeAfterExecution]
            dsimp only
            split
            · split
              · rename_i hm hlt
                obtain ⟨h1, h2, h3⟩ := ih.2
                  { s with error := m, attempt_count := s.attempt_count + 1 }
                  { c with exec := c.exec + 1 }
                have ha : s.attempt_count = 0 := by omega
                refine ⟨?_, ?_, ?_⟩ <;> simp [cntNode, ha] at h1 h2 h3 ⊢ <;> omega
              · refine ⟨?_, ?_, ?_⟩ <;>
                  simp [cntNode, cntP_terminal o f Node.rag_fallback (by simp),
                    cntE_terminal o f Node.rag_fallback (by simp),
                    attempt_terminal o f Node.rag_fallback (by simp)] <;>
                  first
                  | omega
                  | (split <;> omega)
            · split
              · refine ⟨?_, ?_, ?_⟩ <;>
                  simp [cntNode, cntP_terminal o f Node.rag_fallback (by simp),
                    cntE_terminal o f Node.rag_fallback (by simp),
                    attempt_terminal o f Node.rag_fallback (by simp)] <;>
                  first
                  | omega
                  | (split <;> omega)
              · refine ⟨?_, ?_, ?_⟩ <;>
                  simp [cntNode, cntP_terminal o f Node.synthesizer (by simp),
                    cntE_terminal o f Node.synthesizer (by simp),
                    attempt_terminal o f Node.synthesizer (by simp)] <;>
                  first
                  | omega
                  | (split <;> omega)
      · intro s c
        rw [runFrom]
        simp only [execNodeE]
        set s' := queryPlannerNode (o.plan c.plan) s with hs'
        have hfields := queryPlannerNode_fields (o.plan c.plan) s
        rw [← hs'] at hfields
        simp only [nextNode, routeAfterPlanning]
        split
        · refine ⟨?_, ?_, ?_⟩ <;>
            simp [cntNode, cntP_terminal o f Node.rag_fallback (by simp),
              cntE_terminal o f Node.rag_fallback (by simp),
              attempt_terminal o f Node.rag_fallback (by simp), hfields.1] <;>
            first
            | omega
            | (split <;> omega)
        · split
          · refine ⟨?_, ?_, ?_⟩ <;>
              simp [cntNode, cntP_terminal o f Node.rag_fallback (by simp),
                cntE_terminal o f Node.rag_fallback (by simp),
                attempt_terminal o f Node.rag_fallback (by simp), hfields.1] <;>
              first
              | omega
              | (split <;> omega)
          · rename_i he hc
            obtain ⟨h1, h2, h3⟩ := ih.1 s' { c with plan := c.plan + 1 } (not_not.mp he) hc
            rw [hfields.1] at h1 h2 h3
            refine ⟨?_, ?_, ?_⟩ <;> by_cases ha : s.attempt_count = 0 <;>
              simp [cntNode, ha, hfields.1] at h1 h2 h3 ⊢ <;> omega

/-- The classification route lands only on the four classification
targets, and the planner target entails a non-general intent. -/
theorem routeAfterClassification_cases (s : AgentState) :
    routeAfterClassification s = Node.escalation ∨
    routeAfterClassification s = Node.hybrid ∨
    routeAfterClassification s = Node.rag_fallback ∨
    (routeAfterClassification s = Node.query_planner ∧ s.intent ∉ generalIntents) := by
  unfold routeAfterClassification
  split_ifs with h1 h2 h3 h4 h5 <;> simp_all

/-- C2: node execution never decreases `attempt_count`; the only edge
back into the Plan state fires only while `attempt_count < 2` at decision
time; and over any full request the final counter stays at most 2, with
at most 2 Plan entries in the whole trace. -/
theorem attempt_monotone_bounded_plan_capped :
    (∀ (o : Oracles) (c : Cnt) (n : Node) (s s' : AgentState) (c' : Cnt),
        execNodeE o c n s = .ok (s', c') → s.attempt_count ≤ s'.attempt_count)
    ∧ (∀ s : AgentState, routeAfterExecution s = Node.query_planner → s.attempt_count < 2)
    ∧ (∀ (o : Oracles) (f : Nat) (q : String) (cid : Option String),
        (runFrom o f Node.classifier (initSt q cid) ⟨0, 0⟩).state.attempt_count ≤ 2 ∧
        cntNode Node.query_planner
          (runFrom o f Node.classifier (initSt q cid) ⟨0, 0⟩).trace ≤ 2) := by
  refine ⟨?_, ?_, ?_⟩
  · intro o c n s s' c' h
    cases n with
    | classifier =>
        simp only [execNodeE] at h
        cases h
        exact le_of_eq ((classifierNode_fields o s).1).symm
    | query_planner =>
        simp only [execNodeE] at h
        cases h
        exact le_of_eq ((queryPlannerNode_fields (o.plan c.plan) s).1).symm
    | kg_executor =>
        simp only [execNodeE] at h
        by_cases hq : s.cypher_query = ""
        · rw [if_pos hq] at h
          cases h
          simp [kgExecutorNode, hq]
        · rw [if_neg hq] at h
          cases hx : o.exec c.exec with
          | ok rows =>
              rw [hx] at h
              cases h
              simp [kgExecutorNode, hq]
          | raise m =>
              rw [hx] at h
              cases h
              simp [kgExecutorNode, hq]
    | synthesizer =>
        simp only [execNodeE] at h
        cases hs : synthesizerNode o s with
        | error m =>
            rw [hs] at h
            simp [Except.map] at h
        | ok s1 =>
            rw [hs] at h
            simp only [Except.map] at h
            cases h
            exact le_of_eq ((synthesizerNode_ok_fields o s _ hs).1).symm
    | rag_fallback =>
        simp only [execNodeE] at h
        cases h
        exact le_of_eq (ragFallbackNode_attempt o s).symm
    | hybrid =>
        simp only [execNodeE] at h
        cases h
        exact le_of_eq (hybridNode_attempt o s).symm
    | escalation =>
        simp only [execNodeE] at h
        cases h
        exact le_of_eq (escalationNode_attempt s).symm
  · intro s h
    unfold routeAfterExecution at h
    split_ifs at h with h1 h2 h3
    · exact h2
  · intro o f q cid
    cases f with
    | zero => simp [runFrom, cntNode, initSt]
    | succ f =>
        rw [runFrom]
        simp only [execNodeE]
        set s1 := classifierNode o (initSt q cid) with hs1
        have hat : s1.attempt_count = 0 := by
          simpa [initSt] using (classifierNode_fields o (initSt q cid)).1
        simp only [nextNode]
        rcases routeAfterClassification_cases s1 with h | h | h | ⟨h, hni⟩ <;> rw [h]
        · constructor
          · simp [attempt_terminal o f Node.escalation (by simp), hat]
          · simp [cntNode, cntP_terminal o f Node.escalation (by simp)]
        · constructor
          · simp [attempt_terminal o f Node.hybrid (by simp), hat]
          · simp [cntNode, cntP_terminal o f Node.hybrid (by simp)]
        · constructor
          · simp [attempt_terminal o f Node.rag_fallback (by simp), hat]
          · simp [cntNode, cntP_terminal o f Node.rag_fallback (by simp)]
        · obtain ⟨hb1, hb2, hb3⟩ := (run_loop_bounds o f).2 s1 ⟨0, 0⟩
          simp [hat] at hb1 hb3
          constructor
          · simpa using hb3
          · simp only [cntNode]
            simp
            omega

/-- Witness for `attempt_monotone_bounded_plan_capped`: a concrete failed
first execution retries, and a concrete full request stays within the
caps. -/
theorem attempt_monotone_bounded_plan_capped_witness :
    (routeAfterExecution stRetryable = Node.query_planner ∧
      stRetryable.attempt_count < 2) ∧
    ((runFrom oBase 8 Node.classifier (initSt "q" (some "CUST0001"))
        ⟨0, 0⟩).state.attempt_count ≤ 2 ∧
      cntNode Node.query_planner (runFrom oBase 8 Node.classifier
        (initSt "q" (some "CUST0001")) ⟨0, 0⟩).trace ≤ 2) :=
  ⟨⟨by decide, attempt_monotone_bounded_plan_capped.2.1 stRetryable (by decide)⟩,
   attempt_monotone_bounded_plan_capped.2.2 oBase 8 "q" (some "CUST0001")⟩

/-- The classifier node never writes the Cypher query. -/
theorem classifierNode_cypher (o : Oracles) (s : AgentState) :
    (classifierNode o s).cypher_query = s.cypher_query := by
  unfold classifierNode
  cases o.classify <;> rfl

/-- When the planning attempt about to run routes to the RAG fallback,
the executor never appears in the rest of the trace. -/
theorem cntE_planner_to_rag (o : Oracles) (f : Nat) (s : AgentState) (c : Cnt)
    (hroute : routeAfterPlanning (queryPlannerNode (o.plan c.plan) s) = Node.rag_fallback) :
    cntNode Node.kg_executor (runFrom o f Node.query_planner s c).trace = 0 := by
  cases f with
  | zero => simp [runFrom, cntNode]
  | succ f =>
      rw [runFrom]
      simp only [execNodeE, nextNode, hroute]
      simp [cntNode, cntE_terminal o f Node.rag_fallback (by simp)]

/-- When every planning attempt of the request yields the same successful
truthy query, the executor runs at most once from every loop entry point:
a failed execution leaves a truthy error that the identical retry
planning cannot clear, so `route_after_planning` exits to the RAG
fallback. -/
theorem run_exec_once_planok (o : Oracles) (q0 : Option String)
    (hq0 : truthyS q0 = true) (hplan : ∀ i, o.plan i = PlanRes.ok q0) : ∀ f : Nat,
    (∀ s c, s.query_results = [] →
      cntNode Node.kg_executor (runFrom o f Node.kg_executor s c).trace ≤ 1)
    ∧ (∀ s c, s.error ≠ "" →
      cntNode Node.kg_executor (runFrom o f Node.query_planner s c).trace = 0)
    ∧ (∀ s c, s.query_results = [] →
      cntNode Node.kg_executor (runFrom o f Node.query_planner s c).trace ≤ 1) := by
  intro f
  induction f with
  | zero => refine ⟨?_, ?_, ?_⟩ <;> intro s c _ <;> simp [runFrom, cntNode]
  | succ f ih =>
      refine ⟨?_, ?_, ?_⟩
      · intro s c hres
        rw [runFrom]
        simp only [execNodeE]
        by_cases hq : s.cypher_query = ""
        · rw [if_pos hq]
          simp only [kgExecutorNode, if_pos hq, nextNode, routeAfterExecution]
          try dsimp only
          split
          · split
            · have h0 := ih.2.1 { s with error := "No query to execute" } c (by simp)
              simp [cntNode, h0]
            · simp [cntNode, cntE_terminal o f Node.rag_fallback (by simp)]
          · rename_i hcon
            exact absurd (by simp) hcon
        · rw [if_neg hq]
          cases hx : o.exec c.exec with
          | ok rows =>
              simp only [kgExecutorNode, if_neg hq, nextNode, routeAfterExecution]
              try dsimp only
              split
              · split
                · rename_i herr2 _
                  have h0 := ih.2.1 { s with query_results := rows }
                    { c with exec := c.exec + 1 } (by simpa using herr2)
                  simp [cntNode, h0]
                · simp [cntNode, cntE_terminal o f Node.rag_fallback (by simp)]
              · split
                · simp [cntNode, cntE_terminal o f Node.rag_fallback (by simp)]
                · simp [cntNode, cntE_terminal o f Node.synthesizer (by simp)]
          | raise m =>
              simp only [kgExecutorNode, if_neg hq, nextNode, routeAfterExecution]
              try dsimp only
              split
              · split
                · rename_i hm _
                  have h0 := ih.2.1 { s with error := m, attempt_count := s.attempt_count + 1 }
                    { c with exec := c.exec + 1 } (by simpa using hm)
                  simp [cntNode, h0]
                · simp [cntNode, cntE_terminal o f Node.rag_fallback (by simp)]
              · simp [cntNode, cntE_terminal o f Node.rag_fallback (by simp)]
      · intro s c herr
        rw [runFrom]
        simp only [execNodeE]
        have hp : o.plan c.plan = PlanRes.ok q0 := hplan c.plan
        simp only [queryPlannerNode, hp, hq0, if_true, nextNode, routeAfterPlanning]
        try dsimp only
        split
        · simp [cntNode, cntE_terminal o f Node.rag_fallback (by simp)]
        · rename_i hcon
          exact absurd (not_not.mp hcon) herr
      · intro s c hres
        rw [runFrom]
        simp only [execNodeE]
        have hp : o.plan c.plan = PlanRes.ok q0 := hplan c.plan
        simp only [queryPlannerNode, hp, hq0, if_true, nextNode, routeAfterPlanning]
        try dsimp only
        split
        · simp [cntNode, cntE_terminal o f Node.rag_fallback (by simp)]
        · split
          · simp [cntNode, cntE_terminal o f Node.rag_fallback (by simp)]
          · have h0 := ih.1 { s with cypher_query := q0.getD "" }
              { c with plan := c.plan + 1 } (by simpa using hres)
            simp only [cntNode] at h0 ⊢
            simp at h0 ⊢
            omega

/-- C9: once a structured execution error has occurred, the workflow
never re-enters the Execute state.  First conjunct, the mechanism:
`route_after_planning` checks the error field before the generated
query, so any non-empty error — in particular one set by a failed
execution — sends the retry to the RAG fallback.  Second conjunct, the
trace bound: `query_planner_node` is a pure deterministic function
(f-string `QueryBuilder` templates, no external calls) of `intent`,
`parameters` and `customer_id`, none of which any node after
classification modifies, so every planning attempt of a request yields
the same outcome; the hypothesis `∀ i j, o.plan i = o.plan j` records
exactly this source invariant, and under it every full run enters
`kg_executor` at most once. -/
theorem executor_never_reentered :
    (∀ s : AgentState, s.error ≠ "" → routeAfterPlanning s = Node.rag_fallback)
    ∧ (∀ o : Oracles, (∀ i j, o.plan i = o.plan j) →
        ∀ (f : Nat) (q : String) (cid : Option String),
          cntNode Node.kg_executor
            (runFrom o f Node.classifier (initSt q cid) ⟨0, 0⟩).trace ≤ 1) := by
  constructor
  · intro s h
    unfold routeAfterPlanning
    rw [if_pos h]
  · intro o hdet f q cid
    cases f with
    | zero => simp [runFrom, cntNode]
    | succ f =>
        rw [runFrom]
        simp only [execNodeE]
        set s1 := classifierNode o (initSt q cid) with hs1
        have hres : s1.query_results = [] := by
          simpa [initSt] using (classifierNode_fields o (initSt q cid)).2
        have hcy : s1.cypher_query = "" := by
          simpa [initSt] using classifierNode_cypher o (initSt q cid)
        simp only [nextNode]
        rcases routeAfterClassification_cases s1 with h | h | h | ⟨h, hni⟩ <;> rw [h]
        · simp [cntNode, cntE_terminal o f Node.escalation (by simp)]
        · simp [cntNode, cntE_terminal o f Node.hybrid (by simp)]
        · simp [cntNode, cntE_terminal o f Node.rag_fallback (by simp)]
        · cases hp0 : o.plan 0 with
          | ok qopt =>
              by_cases ht : truthyS qopt = true
              · have h0 := (run_exec_once_planok o qopt ht
                    (fun i => (hdet i 0).trans hp0) f).2.2 s1 ⟨0, 0⟩ hres
                simp [cntNode]
                omega
              · have hroute : routeAfterPlanning
                    (queryPlannerNode (o.plan (0 : Nat)) s1) = Node.rag_fallback := by
                  rw [hp0]
                  simp [queryPlannerNode, ht, routeAfterPlanning]
                have h0 := cntE_planner_to_rag o f s1 ⟨0, 0⟩ hroute
                simp [cntNode]
                omega
          | raise m =>
              by_cases hm : m = ""
              · have hroute : routeAfterPlanning
                    (queryPlannerNode (o.plan (0 : Nat)) s1) = Node.rag_fallback := by
                  rw [hp0, hm]
                  simp [queryPlannerNode, routeAfterPlanning, hcy]
                have h0 := cntE_planner_to_rag o f s1 ⟨0, 0⟩ hroute
                simp [cntNode]
                omega
              · have hroute : routeAfterPlanning
                    (queryPlannerNode (o.plan (0 : Nat)) s1) = Node.rag_fallback := by
                  rw [hp0]
                  simp [queryPlannerNode, routeAfterPlanning, hm]
                have h0 := cntE_planner_to_rag o f s1 ⟨0, 0⟩ hroute
                simp [cntNode]
                omega

/-- Witness for `executor_never_reentered`: a concrete erroring state
exits to the fallback, and a concrete full run with a constant planner
oracle enters the executor at most once. -/
theorem executor_never_reentered_witness :
    (stRetryable.error ≠ "" ∧ routeAfterPlanning stRetryable = Node.rag_fallback) ∧
    cntNode Node.kg_executor (runFrom oBase 8 Node.classifier
      (initSt "q" (some "CUST0001")) ⟨0, 0⟩).trace ≤ 1 :=
  ⟨⟨by decide, executor_never_reentered.1 stRetryable (by decide)⟩,
   executor_never_reentered.2 oBase (fun i j => rfl) 8 "q" (some "CUST0001")⟩

/-- The fallback-free terminal nodes never propagate an exception. -/
theorem runFrom_terminal_err (o : Oracles) (f : Nat) (n : Node) (s : AgentState) (c : Cnt)
    (hn : n = Node.rag_fallback ∨ n = Node.hybrid ∨ n = Node.escalation) :
    (runFrom o f n s c).err = none := by
  cases f with
  | zero => rfl
  | succ f => rcases hn with h | h | h <;> subst h <;> simp [runFrom, execNodeE, nextNode]

/-- Away from the coverage_check intent, the synthesizer node always
returns a state: the only partial spot of its fallback template is the
thousands-separator format of `sub_limit` in the coverage template. -/
theorem synthesizerNode_ok_of_intent (o : Oracles) (s : AgentState)
    (h : s.intent ≠ "coverage_check") :
    ∃ s', synthesizerNode o s = .ok s' := by
  have hfb : ∃ r, generateFallbackResponse s.intent s.query_results = .ok r := by
    unfold generateFallbackResponse
    cases s.query_results with
    | nil => exact ⟨_, rfl⟩
    | cons r rest =>
        dsimp only
        rw [if_neg h]
        by_cases hh : s.intent = "hospital_finder" <;> simp [hh]
  unfold synthesizerNode
  split
  · exact ⟨_, rfl⟩
  · cases o.synthGen with
    | ok t => exact ⟨_, rfl⟩
    | raise m =>
        obtain ⟨r, hr⟩ := hfb
        exact ⟨_, by rw [hr]; rfl⟩

/-- A synthesizer run away from coverage_check never propagates. -/
theorem runFrom_synth_err (o : Oracles) (f : Nat) (s : AgentState) (c : Cnt)
    (h : s.intent ≠ "coverage_check") :
    (runFrom o f Node.synthesizer s c).err = none := by
  cases f with
  | zero => rfl
  | succ f =>
      rw [runFrom]
      obtain ⟨s', hs⟩ := synthesizerNode_ok_of_intent o s h
      simp [execNodeE, hs, Except.map, nextNode]

/-- Away from the coverage_check intent — which the classification route
never sends into the structured path — the planner-executor loop never
propagates an exception. -/
theorem run_err_none (o : Oracles) : ∀ f : Nat,
    (∀ s c, s.intent ≠ "coverage_check" →
      (runFrom o f Node.kg_executor s c).err = none)
    ∧ (∀ s c, s.intent ≠ "coverage_check" →
      (runFrom o f Node.query_planner s c).err = none) := by
  intro f
  induction f with
  | zero => exact ⟨fun _ _ _ => rfl, fun _ _ _ => rfl⟩
  | succ f ih =>
      constructor
      · intro s c hintent
        rw [runFrom]
        simp only [execNodeE]
        by_cases hq : s.cypher_query = ""
        · rw [if_pos hq]
          simp only [kgExecutorNode, if_pos hq, nextNode, routeAfterExecution]
          try dsimp only
          split
          · split
            · exact ih.2 _ _ (by simpa using hintent)
            · exact runFrom_terminal_err o f Node.rag_fallback _ _ (by simp)
          · split
            · exact runFrom_terminal_err o f Node.rag_fallback _ _ (by simp)
            · exact runFrom_synth_err o f _ _ (by simpa using hintent)
        · rw [if_neg hq]
          cases hx : o.exec c.exec with
          | ok rows =>
              simp only [kgExecutorNode, if_neg hq, nextNode, routeAfterExecution]
              try dsimp only
              split
              · split
                · exact ih.2 _ _ (by simpa using hintent)
                · exact runFrom_terminal_err o f Node.rag_fallback _ _ (by simp)
              · split
                · exact runFrom_terminal_err o f Node.rag_fallback _ _ (by simp)
                · exact runFrom_synth_err o f _ _ (by simpa using hintent)
          | raise m =>
              simp only [kgExecutorNode, if_neg hq, nextNode, routeAfterExecution]
              try dsimp only
              split
              · split
                · exact ih.2 _ _ (by simpa using hintent)
                · exact runFrom_terminal_err o f Node.rag_fallback _ _ (by simp)
              · split
                · exact runFrom_terminal_err o f Node.rag_fallback _ _ (by simp)
                · exact runFrom_synth_err o f _ _ (by simpa using hintent)
      · intro s c hintent
        rw [runFrom]
        simp only [execNodeE]
        cases hp : o.plan c.plan with
        | ok qopt =>
            by_cases ht : truthyS qopt = true
            · simp only [queryPlannerNode, hp, ht, if_true, nextNode, routeAfterPlanning]
              try dsimp only
              split
              · exact runFrom_terminal_err o f Node.rag_fallback _ _ (by simp)
              · split
                · exact runFrom_terminal_err o f Node.rag_fallback _ _ (by simp)
                · exact ih.1 _ _ (by simpa using hintent)
            · simp only [queryPlannerNode, hp, nextNode, routeAfterPlanning]
              simp only [if_neg ht]
              try dsimp only
              split
              · exact runFrom_terminal_err o f Node.rag_fallback _ _ (by simp)
              · split
                · exact runFrom_terminal_err o f Node.rag_fallback _ _ (by simp)
                · exact ih.1 _ _ (by simpa using hintent)
        | raise m =>
            simp only [queryPlannerNode, hp, nextNode, routeAfterPlanning]
            try dsimp only
            split
            · exact runFrom_terminal_err o f Node.rag_fallback _ _ (by simp)
            · split
              · exact runFrom_terminal_err o f Node.rag_fallback _ _ (by simp)
              · exact ih.1 _ _ (by simpa using hintent)

/-- No full request run ever propagates an exception. -/
theorem run_classifier_err (o : Oracles) (f : Nat) (q : String) (cid : Option String) :
    (runFrom o f Node.classifier (initSt q cid) ⟨0, 0⟩).err = none := by
  cases f with
  | zero => rfl
  | succ f =>
      rw [runFrom]
      simp only [execNodeE]
      set s1 := classifierNode o (initSt q cid) with hs1
      simp only [nextNode]
      rcases routeAfterClassification_cases s1 with h | h | h | ⟨h, hni⟩ <;> rw [h]
      · exact runFrom_terminal_err o f Node.escalation _ _ (by simp)
      · exact runFrom_terminal_err o f Node.hybrid _ _ (by simp)
      · exact runFrom_terminal_err o f Node.rag_fallback _ _ (by simp)
      · have hint : s1.intent ≠ "coverage_check" := by
          intro hcc
          exact hni (by rw [hcc]; decide)
        exact (run_err_none o f).2 s1 ⟨0, 0⟩ hint

/-- C3: for every oracle environment — any outcome of the classifier,
planner, executor, retriever and generator calls, exceptions included —
and any query, customer and session input, `process_query` hands a string
response back to its caller: the `none` outcome that models a propagated
exception never happens, every collaborator failure having been absorbed
into a routing decision or fallback response. -/
theorem processQuery_never_raises (o : Oracles) (mem : Option ConversationMemory)
    (q : String) (cid sid : Option String) (now : Int) :
    ((processQuery o mem q cid sid now).1).isSome = true := by
  have herr := run_classifier_err o 8 q cid
  unfold processQuery
  simp [herr]

end MedAssist
